import Mathlib

/-!
Verification of the chunked-upload engine of ChunkUploader-RS (`src/main.rs`,
function `do_upload`).

The engine is embedded shallowly.  All run-to-run variation of the real
program is made an explicit input (an `Env`): the source file's bytes, the
outcome of the initial seek, the number of bytes each `read` call reports,
and the HTTP response each request receives.  The loop itself is translated
line by line from `do_upload`; it returns the sequence of issued HTTP
requests (each paired with the ghost data `pos`/`n` recording where its read
started and how many bytes that read reported) together with the terminal
outcome.

Arithmetic note: the Rust code computes on `u64`/`usize` (64-bit).  Every
executed iteration allocates a buffer of `chunk_size` (or `end - start`)
bytes, so any run that does not abort on allocation has all quantities far
below `2^64` and the `u64` additions never wrap; the embedding therefore
uses `ℕ`.  The loop is given fuel `file_end - file_start + 1`, which the
theorems show is never exhausted under the Read-trait contract
(`n ≤ buffer length`).
-/

namespace ChunkUploader

/-- Result of one HTTP send, as `do_upload` observes it: either a transport
error (the `Err` arm of `res`) or a response with a status code and the
result of `res.text()` (`none` models a body that cannot be read). -/
inductive HttpResp where
  | transportErr (msg : String)
  | ok (status : ℕ) (bodyText : Option String)
deriving DecidableEq

/-- One issued HTTP request, as built in the loop body of `do_upload`:
the method and URL, the three numbers formatted into the `Content-Range`
header, the header value itself, and the request body. -/
structure Request where
  method : String
  url : String
  rStart : ℕ
  rEnd : ℕ
  rTotal : ℕ
  header : String
  body : List ℕ
deriving DecidableEq

/-- Trace entry for one loop iteration that reached the HTTP send: the
request, plus ghost observations of the iteration — the file offset `pos`
at which its `read` started and the byte count `n` the read returned. -/
structure Step where
  req : Request
  pos : ℕ
  n : ℕ
deriving DecidableEq

/-- Terminal outcome of a run of `do_upload`.  `success` is
`exit!(true, "Request completed successfully")`; the three error cases are
the seek/read failure, the `Err` arm of the send, and the non-200 branch.
`fuelOut` marks exhaustion of the embedding's fuel (shown unreachable). -/
inductive Outcome where
  | success
  | sourceIoError (msg : String)
  | transportError (msg : String)
  | httpStatusError (msg : String)
  | fuelOut
deriving DecidableEq

/-- The run's environment: everything outside the loop's own control.
`data` is the full byte content of the source file, `seekErr` the result of
the initial seek, `readRes pos len` what `file.read` returns when called at
file offset `pos` with a buffer of length `len` (an `io::Error` message or
a byte count), and `resp k` the HTTP response to the `k`-th request. -/
structure Env where
  data : List ℕ
  seekErr : Option String
  readRes : ℕ → ℕ → Except String ℕ
  resp : ℕ → HttpResp
  url : String
  method : String

/-- The `format!("bytes {}-{}/{}", start, end, file_end)` header value. -/
def contentRange (s e t : ℕ) : String :=
  "bytes " ++ toString s ++ "-" ++ toString e ++ "/" ++ toString t

/-- Length of the buffer allocated for the chunk at cursor `start`:
`if start + chunk_size > file_end { file_end - start } else { chunk_size }`. -/
def chunkLen (start fileEnd chunkSize : ℕ) : ℕ :=
  if start + chunkSize > fileEnd then fileEnd - start else chunkSize

/-- The chunk buffer after `file.read` reported `n` bytes: `vec![0; len]`
with its first `n` slots overwritten by the file bytes at offset `pos`
(truncated back to `len`; a correct `read` has `n ≤ len` and never reports
bytes the file does not hold, in which case this is exactly the read bytes
followed by `len - n` zeros). -/
def mkBody (data : List ℕ) (pos n len : ℕ) : List ℕ :=
  ((data.drop pos).take n ++ List.replicate len 0).take len

/-- The trace entry the loop body produces for cursor `start`, read offset
`pos` and read count `n`: the request with the code's `Content-Range`
header and full-buffer body, plus the ghost fields. -/
def mkStep (env : Env) (fileEnd chunkSize start pos n : ℕ) : Step :=
  { req :=
      { method := env.method
        url := env.url
        rStart := start
        rEnd := start + chunkLen start fileEnd chunkSize
        rTotal := fileEnd
        header := contentRange start (start + chunkLen start fileEnd chunkSize) fileEnd
        body := mkBody env.data pos n (chunkLen start fileEnd chunkSize) }
    pos := pos
    n := n }

/-- Prepend the current iteration's trace entry to the rest of the run. -/
def consStep (st : Step) (r : List Step × Outcome) : List Step × Outcome :=
  (st :: r.1, r.2)

/-- The `while start < file_end` loop of `do_upload`, fuelled.  `start` is
the cursor, `pos` the source file's current offset (they coincide at entry
and drift apart only on a short read, which ends the loop), `k` the index
of the next HTTP request.  Each iteration: compute the chunk boundary and
buffer, read, send, then fail on transport error or non-200 status, stop
with success if `n == 0 || n < chunk_size`, otherwise advance the cursor by
`chunk_size`. -/
def uploadLoop (env : Env) (fileEnd chunkSize : ℕ) :
    ℕ → ℕ → ℕ → ℕ → List Step × Outcome
  | 0, start, _, _ => if start < fileEnd then ([], .fuelOut) else ([], .success)
  | fuel + 1, start, pos, k =>
    if start < fileEnd then
      match env.readRes pos (chunkLen start fileEnd chunkSize) with
      | .error msg => ([], .sourceIoError msg)
      | .ok n =>
        match env.resp k with
        | .transportErr msg =>
          ([mkStep env fileEnd chunkSize start pos n],
           .transportError ("Error uploading chunk: " ++ msg))
        | .ok status bodyText =>
          if status ≠ 200 then
            ([mkStep env fileEnd chunkSize start pos n],
             .httpStatusError ("Http Error uploading chunk: " ++
               bodyText.getD "Response body is empty"))
          else if n = 0 ∨ n < chunkSize then
            ([mkStep env fileEnd chunkSize start pos n], .success)
          else
            consStep (mkStep env fileEnd chunkSize start pos n)
              (uploadLoop env fileEnd chunkSize fuel (start + chunkSize) (pos + n) (k + 1))
    else ([], .success)

/-- `do_upload`: seek to `file_start` (failing fatally), then run the loop
with cursor and file offset both at `file_start`. -/
def do_upload (env : Env) (fileStart fileEnd chunkSize : ℕ) : List Step × Outcome :=
  match env.seekErr with
  | some msg => ([], .sourceIoError ("Error reading file: " ++ msg))
  | none => uploadLoop env fileEnd chunkSize (fileEnd - fileStart + 1) fileStart fileStart 0

/-- The boundary pairs the code's cursor rule generates: from cursor
`start < fileEnd` the next pair is `(start, start + chunkLen …)` — that is,
`(start, min (start + chunkSize) fileEnd)` — and the cursor advances by
`chunkSize`.  This is the chunk plan the loop follows when nothing stops it
early. -/
def planChunksAux (fileEnd chunkSize : ℕ) : ℕ → ℕ → List (ℕ × ℕ)
  | 0, _ => []
  | fuel + 1, start =>
    if start < fileEnd then
      (start, start + chunkLen start fileEnd chunkSize) ::
        planChunksAux fileEnd chunkSize fuel (start + chunkSize)
    else []

/-- The full chunk plan for the range `[fileStart, fileEnd)`. -/
def planChunks (fileStart fileEnd chunkSize : ℕ) : List (ℕ × ℕ) :=
  planChunksAux fileEnd chunkSize (fileEnd - fileStart + 1) fileStart

/-- The trace entry a fully-read chunk with boundaries `pr` produces: the
read starts at `pr.1` (cursor and file offset agree on the happy path) and
reports the whole buffer, `pr.2 - pr.1` bytes. -/
def stepOf (env : Env) (fileEnd chunkSize : ℕ) (pr : ℕ × ℕ) : Step :=
  mkStep env fileEnd chunkSize pr.1 pr.1 (pr.2 - pr.1)

/-- The sequence of HTTP requests (with ghost read data) a run issues. -/
def requests (env : Env) (fileStart fileEnd chunkSize : ℕ) : List Step :=
  (do_upload env fileStart fileEnd chunkSize).1

/-- The terminal outcome of a run. -/
def outcome (env : Env) (fileStart fileEnd chunkSize : ℕ) : Outcome :=
  (do_upload env fileStart fileEnd chunkSize).2

section Lemmas

@[simp] lemma mkStep_req_method (env : Env) (e c a p n : ℕ) :
    (mkStep env e c a p n).req.method = env.method := rfl

@[simp] lemma mkStep_req_url (env : Env) (e c a p n : ℕ) :
    (mkStep env e c a p n).req.url = env.url := rfl

@[simp] lemma mkStep_req_rStart (env : Env) (e c a p n : ℕ) :
    (mkStep env e c a p n).req.rStart = a := rfl

@[simp] lemma mkStep_req_rEnd (env : Env) (e c a p n : ℕ) :
    (mkStep env e c a p n).req.rEnd = a + chunkLen a e c := rfl

@[simp] lemma mkStep_req_rTotal (env : Env) (e c a p n : ℕ) :
    (mkStep env e c a p n).req.rTotal = e := rfl

@[simp] lemma mkStep_req_header (env : Env) (e c a p n : ℕ) :
    (mkStep env e c a p n).req.header = contentRange a (a + chunkLen a e c) e := rfl

@[simp] lemma mkStep_req_body (env : Env) (e c a p n : ℕ) :
    (mkStep env e c a p n).req.body = mkBody env.data p n (chunkLen a e c) := rfl

@[simp] lemma mkStep_pos (env : Env) (e c a p n : ℕ) :
    (mkStep env e c a p n).pos = p := rfl

@[simp] lemma mkStep_n (env : Env) (e c a p n : ℕ) :
    (mkStep env e c a p n).n = n := rfl

@[simp] lemma consStep_fst (st : Step) (r : List Step × Outcome) :
    (consStep st r).1 = st :: r.1 := rfl

@[simp] lemma consStep_snd (st : Step) (r : List Step × Outcome) :
    (consStep st r).2 = r.2 := rfl

lemma chunkLen_le (a e c : ℕ) : chunkLen a e c ≤ c := by
  unfold chunkLen; split <;> omega

lemma chunkLen_eq_min (a e c : ℕ) (h : a < e) :
    chunkLen a e c = min c (e - a) := by
  unfold chunkLen; split <;> omega

lemma add_chunkLen_eq_min (a e c : ℕ) (h : a ≤ e) :
    a + chunkLen a e c = min (a + c) e := by
  unfold chunkLen; split <;> omega

lemma chunkLen_pos (a e c : ℕ) (h : a < e) (hc : 0 < c) :
    0 < chunkLen a e c := by
  unfold chunkLen; split <;> omega

lemma chunkLen_add_le (a e c : ℕ) (h : a ≤ e) :
    a + chunkLen a e c ≤ e := by
  unfold chunkLen; split <;> omega

@[simp] lemma mkBody_length (data : List ℕ) (p n len : ℕ) :
    (mkBody data p n len).length = len := by
  simp only [mkBody, List.length_take, List.length_append, List.length_replicate]
  omega

lemma mkBody_padding (data : List ℕ) (p n len i : ℕ) (hn : n ≤ i) (hi : i < len) :
    (mkBody data p n len)[i]? = some 0 := by
  unfold mkBody
  rw [List.getElem?_take_of_lt hi,
      List.getElem?_append_right (by simp; omega)]
  apply List.getElem?_replicate_of_lt
  simp only [List.length_take]
  omega

lemma getElem_singleton {α : Type} (x st : α) (j : ℕ) (h : [x][j]? = some st) :
    j = 0 ∧ st = x := by
  cases j with
  | zero => rw [List.getElem?_cons_zero] at h; exact ⟨rfl, (Option.some.inj h).symm⟩
  | succ j => simp at h

/-- Every trace entry the loop emits has the shape built by the loop body:
its request is the one assembled from its own cursor, read offset and read
count, that read really was issued and returned its `n`, and its cursor is
inside the range. -/
lemma uploadLoop_shape (env : Env) (e c : ℕ) :
    ∀ (fuel start pos k j : ℕ) (st : Step),
      (uploadLoop env e c fuel start pos k).1[j]? = some st →
      st = mkStep env e c st.req.rStart st.pos st.n ∧
      env.readRes st.pos (chunkLen st.req.rStart e c) = Except.ok st.n ∧
      st.req.rStart < e := by
  intro fuel
  induction fuel with
  | zero =>
    intro start pos k j st h
    by_cases hse : start < e <;> simp [uploadLoop, hse] at h
  | succ fuel ih =>
    intro start pos k j st h
    by_cases hse : start < e
    · cases hr : env.readRes pos (chunkLen start e c) with
      | error msg => simp [uploadLoop, hse, hr] at h
      | ok n =>
        cases hp : env.resp k with
        | transportErr msg =>
          simp only [uploadLoop, hse, if_true, hr, hp] at h
          obtain ⟨hj0, hst⟩ := getElem_singleton _ _ _ h
          subst hst
          exact ⟨by simp, by simpa using hr, by simpa using hse⟩
        | ok status bodyText =>
          by_cases hstat : status ≠ 200
          · simp only [uploadLoop, hse, if_true, hr, hp] at h
            rw [if_pos hstat] at h
            obtain ⟨hj0, hst⟩ := getElem_singleton _ _ _ h
            subst hst
            exact ⟨by simp, by simpa using hr, by simpa using hse⟩
          · by_cases hbrk : n = 0 ∨ n < c
            · simp only [uploadLoop, hse, if_true, hr, hp] at h
              rw [if_neg hstat, if_pos hbrk] at h
              obtain ⟨hj0, hst⟩ := getElem_singleton _ _ _ h
              subst hst
              exact ⟨by simp, by simpa using hr, by simpa using hse⟩
            · simp only [uploadLoop, hse, if_true, hr, hp] at h
              rw [if_neg hstat, if_neg hbrk] at h
              rw [consStep_fst] at h
              cases j with
              | zero =>
                rw [List.getElem?_cons_zero] at h
                obtain hst := (Option.some.inj h).symm
                subst hst
                exact ⟨by simp, by simpa using hr, by simpa using hse⟩
              | succ j =>
                rw [List.getElem?_cons_succ] at h
                exact ih (start + c) (pos + n) (k + 1) j st h
    · simp [uploadLoop, hse] at h

/-- The `j`-th issued request starts at cursor `start + j * chunkSize`:
the loop only ever advances the cursor by `chunkSize`. -/
lemma uploadLoop_rStart (env : Env) (e c : ℕ) :
    ∀ (fuel start pos k j : ℕ) (st : Step),
      (uploadLoop env e c fuel start pos k).1[j]? = some st →
      st.req.rStart = start + j * c := by
  intro fuel
  induction fuel with
  | zero =>
    intro start pos k j st h
    by_cases hse : start < e <;> simp [uploadLoop, hse] at h
  | succ fuel ih =>
    intro start pos k j st h
    by_cases hse : start < e
    · cases hr : env.readRes pos (chunkLen start e c) with
      | error msg => simp [uploadLoop, hse, hr] at h
      | ok n =>
        cases hp : env.resp k with
        | transportErr msg =>
          simp only [uploadLoop, hse, if_true, hr, hp] at h
          obtain ⟨hj0, hst⟩ := getElem_singleton _ _ _ h
          subst hj0; subst hst; simp
        | ok status bodyText =>
          by_cases hstat : status ≠ 200
          · simp only [uploadLoop, hse, if_true, hr, hp] at h
            rw [if_pos hstat] at h
            obtain ⟨hj0, hst⟩ := getElem_singleton _ _ _ h
            subst hj0; subst hst; simp
          · by_cases hbrk : n = 0 ∨ n < c
            · simp only [uploadLoop, hse, if_true, hr, hp] at h
              rw [if_neg hstat, if_pos hbrk] at h
              obtain ⟨hj0, hst⟩ := getElem_singleton _ _ _ h
              subst hj0; subst hst; simp
            · simp only [uploadLoop, hse, if_true, hr, hp] at h
              rw [if_neg hstat, if_neg hbrk, consStep_fst] at h
              cases j with
              | zero =>
                rw [List.getElem?_cons_zero] at h
                rw [← Option.some.inj h]; simp
              | succ j =>
                rw [List.getElem?_cons_succ] at h
                have hih := ih (start + c) (pos + n) (k + 1) j st h
                rw [hih]; ring
    · simp [uploadLoop, hse] at h

/-- If the `j`-th issued request draws a non-200 response, the loop stops
there: the trace has exactly `j + 1` entries and the outcome is the
`HttpStatusError` whose message carries the response body (or the
placeholder when the body cannot be read). -/
lemma uploadLoop_bad_status (env : Env) (e c : ℕ) :
    ∀ (fuel start pos k j : ℕ) (st : Step) (status : ℕ) (bt : Option String),
      (uploadLoop env e c fuel start pos k).1[j]? = some st →
      env.resp (k + j) = HttpResp.ok status bt →
      status ≠ 200 →
      (uploadLoop env e c fuel start pos k).1.length = j + 1 ∧
      (uploadLoop env e c fuel start pos k).2 =
        Outcome.httpStatusError ("Http Error uploading chunk: " ++
          bt.getD "Response body is empty") := by
  intro fuel
  induction fuel with
  | zero =>
    intro start pos k j st status bt h hresp hstatus
    by_cases hse : start < e <;> simp [uploadLoop, hse] at h
  | succ fuel ih =>
    intro start pos k j st status bt h hresp hstatus
    by_cases hse : start < e
    · cases hr : env.readRes pos (chunkLen start e c) with
      | error msg => simp [uploadLoop, hse, hr] at h
      | ok n =>
        cases hp : env.resp k with
        | transportErr msg =>
          simp only [uploadLoop, hse, if_true, hr, hp] at h
          obtain ⟨hj0, hst⟩ := getElem_singleton _ _ _ h
          subst hj0
          rw [Nat.add_zero, hp] at hresp
          simp at hresp
        | ok status' bodyText =>
          by_cases hstat : status' ≠ 200
          · have hEq : uploadLoop env e c (fuel + 1) start pos k =
                ([mkStep env e c start pos n],
                 Outcome.httpStatusError ("Http Error uploading chunk: " ++
                   bodyText.getD "Response body is empty")) := by
              simp only [uploadLoop, hse, if_true, hr, hp]
              rw [if_pos hstat]
            rw [hEq] at h ⊢
            obtain ⟨hj0, hst⟩ := getElem_singleton _ _ _ h
            subst hj0
            rw [Nat.add_zero, hp] at hresp
            injection hresp with h1 h2
            subst h1; subst h2
            exact ⟨by simp, rfl⟩
          · by_cases hbrk : n = 0 ∨ n < c
            · have hEq : uploadLoop env e c (fuel + 1) start pos k =
                  ([mkStep env e c start pos n], Outcome.success) := by
                simp only [uploadLoop, hse, if_true, hr, hp]
                rw [if_neg hstat, if_pos hbrk]
              rw [hEq] at h
              obtain ⟨hj0, hst⟩ := getElem_singleton _ _ _ h
              subst hj0
              rw [Nat.add_zero, hp] at hresp
              injection hresp with h1 h2
              subst h1
              exact absurd rfl (by push_neg at hstat; rw [hstat] at hstatus; exact hstatus)
            · have hEq : uploadLoop env e c (fuel + 1) start pos k =
                  consStep (mkStep env e c start pos n)
                    (uploadLoop env e c fuel (start + c) (pos + n) (k + 1)) := by
                simp only [uploadLoop, hse, if_true, hr, hp]
                rw [if_neg hstat, if_neg hbrk]
              rw [hEq] at h ⊢
              rw [consStep_fst] at h
              cases j with
              | zero =>
                rw [List.getElem?_cons_zero] at h
                rw [Nat.add_zero, hp] at hresp
                injection hresp with h1 h2
                subst h1
                exact absurd rfl (by push_neg at hstat; rw [hstat] at hstatus; exact hstatus)
              | succ j =>
                rw [List.getElem?_cons_succ] at h
                have hresp' : env.resp (k + 1 + j) = HttpResp.ok status bt := by
                  rw [show k + 1 + j = k + (j + 1) from by omega]
                  exact hresp
                have hih := ih (start + c) (pos + n) (k + 1) j st status bt h hresp' hstatus
                rw [consStep_fst, consStep_snd]
                constructor
                · rw [List.length_cons, hih.1]
                · exact hih.2
    · simp [uploadLoop, hse] at h

/-- If the read of the `j`-th issued chunk reported `n == 0` or
`n < chunk_size`, the loop never goes past that chunk: the trace has
exactly `j + 1` entries, and when that chunk's response is a 200 the run
ends in success. -/
lemma uploadLoop_short_read (env : Env) (e c : ℕ) :
    ∀ (fuel start pos k j : ℕ) (st : Step),
      (uploadLoop env e c fuel start pos k).1[j]? = some st →
      st.n = 0 ∨ st.n < c →
      (uploadLoop env e c fuel start pos k).1.length = j + 1 ∧
      (∀ bt, env.resp (k + j) = HttpResp.ok 200 bt →
        (uploadLoop env e c fuel start pos k).2 = Outcome.success) := by
  intro fuel
  induction fuel with
  | zero =>
    intro start pos k j st h hn
    by_cases hse : start < e <;> simp [uploadLoop, hse] at h
  | succ fuel ih =>
    intro start pos k j st h hn
    by_cases hse : start < e
    · cases hr : env.readRes pos (chunkLen start e c) with
      | error msg => simp [uploadLoop, hse, hr] at h
      | ok n =>
        cases hp : env.resp k with
        | transportErr msg =>
          have hEq : uploadLoop env e c (fuel + 1) start pos k =
              ([mkStep env e c start pos n],
               Outcome.transportError ("Error uploading chunk: " ++ msg)) := by
            simp only [uploadLoop, hse, if_true, hr, hp]
          rw [hEq] at h ⊢
          obtain ⟨hj0, hst⟩ := getElem_singleton _ _ _ h
          subst hj0
          refine ⟨by simp, ?_⟩
          intro bt hb
          rw [Nat.add_zero, hp] at hb
          simp at hb
        | ok status' bodyText =>
          by_cases hstat : status' ≠ 200
          · have hEq : uploadLoop env e c (fuel + 1) start pos k =
                ([mkStep env e c start pos n],
                 Outcome.httpStatusError ("Http Error uploading chunk: " ++
                   bodyText.getD "Response body is empty")) := by
              simp only [uploadLoop, hse, if_true, hr, hp]
              rw [if_pos hstat]
            rw [hEq] at h ⊢
            obtain ⟨hj0, hst⟩ := getElem_singleton _ _ _ h
            subst hj0
            refine ⟨by simp, ?_⟩
            intro bt hb
            rw [Nat.add_zero, hp] at hb
            injection hb with h1 h2
            exact absurd h1 hstat
          · by_cases hbrk : n = 0 ∨ n < c
            · have hEq : uploadLoop env e c (fuel + 1) start pos k =
                  ([mkStep env e c start pos n], Outcome.success) := by
                simp only [uploadLoop, hse, if_true, hr, hp]
                rw [if_neg hstat, if_pos hbrk]
              rw [hEq] at h ⊢
              obtain ⟨hj0, hst⟩ := getElem_singleton _ _ _ h
              subst hj0
              exact ⟨by simp, fun bt hb => rfl⟩
            · have hEq : uploadLoop env e c (fuel + 1) start pos k =
                  consStep (mkStep env e c start pos n)
                    (uploadLoop env e c fuel (start + c) (pos + n) (k + 1)) := by
                simp only [uploadLoop, hse, if_true, hr, hp]
                rw [if_neg hstat, if_neg hbrk]
              rw [hEq] at h ⊢
              rw [consStep_fst] at h
              cases j with
              | zero =>
                rw [List.getElem?_cons_zero] at h
                rw [← Option.some.inj h] at hn
                simp only [mkStep_n] at hn
                exact absurd hn hbrk
              | succ j =>
                rw [List.getElem?_cons_succ] at h
                have hih := ih (start + c) (pos + n) (k + 1) j st h hn
                refine ⟨?_, ?_⟩
                · rw [consStep_fst, List.length_cons, hih.1]
                · intro bt hb
                  rw [consStep_snd]
                  refine hih.2 bt ?_
                  rw [show k + 1 + j = k + (j + 1) from by omega]
                  exact hb
    · simp [uploadLoop, hse] at h

/-- Whenever the trace has an entry after entry `j`, the loop continued
past chunk `j`: the next cursor is exactly `chunkSize` further, and chunk
`j`'s read was full (`n ≠ 0` and `n ≥ chunk_size`). -/
lemma uploadLoop_consecutive (env : Env) (e c : ℕ) :
    ∀ (fuel start pos k j : ℕ) (st st' : Step),
      (uploadLoop env e c fuel start pos k).1[j]? = some st →
      (uploadLoop env e c fuel start pos k).1[j+1]? = some st' →
      st'.req.rStart = st.req.rStart + c ∧ ¬(st.n = 0 ∨ st.n < c) := by
  intro fuel
  induction fuel with
  | zero =>
    intro start pos k j st st' h h2
    by_cases hse : start < e <;> simp [uploadLoop, hse] at h
  | succ fuel ih =>
    intro start pos k j st st' h h2
    by_cases hse : start < e
    · cases hr : env.readRes pos (chunkLen start e c) with
      | error msg => simp [uploadLoop, hse, hr] at h
      | ok n =>
        cases hp : env.resp k with
        | transportErr msg =>
          simp only [uploadLoop, hse, if_true, hr, hp] at h2
          rw [List.getElem?_cons_succ] at h2
          simp at h2
        | ok status' bodyText =>
          by_cases hstat : status' ≠ 200
          · simp only [uploadLoop, hse, if_true, hr, hp] at h2
            rw [if_pos hstat, List.getElem?_cons_succ] at h2
            simp at h2
          · by_cases hbrk : n = 0 ∨ n < c
            · simp only [uploadLoop, hse, if_true, hr, hp] at h2
              rw [if_neg hstat, if_pos hbrk, List.getElem?_cons_succ] at h2
              simp at h2
            · have hEq : uploadLoop env e c (fuel + 1) start pos k =
                  consStep (mkStep env e c start pos n)
                    (uploadLoop env e c fuel (start + c) (pos + n) (k + 1)) := by
                simp only [uploadLoop, hse, if_true, hr, hp]
                rw [if_neg hstat, if_neg hbrk]
              rw [hEq, consStep_fst] at h h2
              cases j with
              | zero =>
                rw [List.getElem?_cons_zero] at h
                rw [List.getElem?_cons_succ] at h2
                have hst' := uploadLoop_rStart env e c fuel (start + c) (pos + n) (k + 1) 0 st' h2
                rw [← Option.some.inj h]
                simp only [mkStep_req_rStart, mkStep_n]
                rw [hst']
                exact ⟨by ring, hbrk⟩
              | succ j =>
                rw [List.getElem?_cons_succ] at h h2
                exact ih (start + c) (pos + n) (k + 1) j st st' h h2
    · simp [uploadLoop, hse] at h

/-- Element `j` of the plan starts at `start + j * chunkSize`, ends at the
boundary the code computes for that cursor, and lies inside the range. -/
lemma planChunksAux_elem (e c : ℕ) :
    ∀ (fuel start j : ℕ) (pr : ℕ × ℕ),
      (planChunksAux e c fuel start)[j]? = some pr →
      pr.1 = start + j * c ∧ pr.2 = pr.1 + chunkLen pr.1 e c ∧ pr.1 < e := by
  intro fuel
  induction fuel with
  | zero => intro start j pr h; simp [planChunksAux] at h
  | succ fuel ih =>
    intro start j pr h
    by_cases hse : start < e
    · simp only [planChunksAux] at h
      rw [if_pos hse] at h
      cases j with
      | zero =>
        rw [List.getElem?_cons_zero] at h
        rw [← Option.some.inj h]
        exact ⟨by simp, rfl, by simpa using hse⟩
      | succ j =>
        rw [List.getElem?_cons_succ] at h
        obtain ⟨h1, h2, h3⟩ := ih (start + c) j pr h
        exact ⟨by rw [h1]; ring, h2, h3⟩
    · simp only [planChunksAux] at h
      rw [if_neg hse] at h
      simp at h

/-- One step of the ceiling-division recurrence used to count chunks. -/
lemma ceil_div_step (a c : ℕ) (hc : 0 < c) (ha : 0 < a) :
    (a - c + c - 1) / c + 1 = (a + c - 1) / c := by
  have h1 : a + c - 1 = a - 1 + c := by omega
  rw [h1, Nat.add_div_right _ hc]
  rcases le_or_lt a c with h | h
  · have h2 : a - c + c - 1 = c - 1 := by omega
    have h3 : a - 1 < c := by omega
    rw [h2, Nat.div_eq_of_lt (by omega), Nat.div_eq_of_lt h3]
  · have h2 : a - c + c - 1 = a - 1 := by omega
    rw [h2]

/-- With positive chunk size and enough fuel, the plan for `[start, e)`
has exactly `⌈(e - start) / c⌉` chunks. -/
lemma planChunksAux_length (e c : ℕ) (hc : 0 < c) :
    ∀ (fuel start : ℕ), e - start ≤ fuel →
      (planChunksAux e c fuel start).length = (e - start + c - 1) / c := by
  intro fuel
  induction fuel with
  | zero =>
    intro start hfuel
    have hse : ¬ start < e := by omega
    simp only [planChunksAux, List.length_nil]
    have : e - start = 0 := by omega
    rw [this, Nat.zero_add]
    exact (Nat.div_eq_of_lt (by omega)).symm
  | succ fuel ih =>
    intro start hfuel
    by_cases hse : start < e
    · simp only [planChunksAux]
      rw [if_pos hse, List.length_cons]
      rw [ih (start + c) (by omega)]
      have h1 : e - (start + c) = e - start - c := by omega
      rw [h1]
      exact ceil_div_step (e - start) c hc (by omega)
    · simp only [planChunksAux]
      rw [if_neg hse, List.length_nil]
      have : e - start = 0 := by omega
      rw [this, Nat.zero_add]
      exact (Nat.div_eq_of_lt (by omega)).symm

/-- With positive chunk size and enough fuel, the plan's chunks cover
exactly the half-open interval `[start, e)`: a byte offset `x` lies in
`[start, e)` iff some planned chunk `[pr.1, pr.2)` contains it. -/
lemma planChunksAux_union (e c : ℕ) (hc : 0 < c) :
    ∀ (fuel start : ℕ), e - start ≤ fuel → ∀ x : ℕ,
      (start ≤ x ∧ x < e) ↔
      ∃ (j : ℕ) (pr : ℕ × ℕ), (planChunksAux e c fuel start)[j]? = some pr ∧
        pr.1 ≤ x ∧ x < pr.2 := by
  intro fuel
  induction fuel with
  | zero =>
    intro start hfuel x
    constructor
    · intro hx; omega
    · intro hx
      obtain ⟨j, pr, hj, _⟩ := hx
      simp [planChunksAux] at hj
  | succ fuel ih =>
    intro start hfuel x
    by_cases hse : start < e
    · constructor
      · intro hx
        by_cases hx2 : x < start + chunkLen start e c
        · refine ⟨0, (start, start + chunkLen start e c), ?_, hx.1, hx2⟩
          simp only [planChunksAux]
          rw [if_pos hse, List.getElem?_cons_zero]
        · by_cases hb : start + c > e
          · exfalso
            have : chunkLen start e c = e - start := by unfold chunkLen; rw [if_pos hb]
            omega
          · have hlen : chunkLen start e c = c := by unfold chunkLen; rw [if_neg hb]
            rw [hlen] at hx2
            obtain ⟨j, pr, hj, hpr⟩ :=
              (ih (start + c) (by omega) x).mp ⟨by omega, hx.2⟩
            refine ⟨j + 1, pr, ?_, hpr⟩
            simp only [planChunksAux]
            rw [if_pos hse, List.getElem?_cons_succ]
            exact hj
      · intro hx
        obtain ⟨j, pr, hj, hpr⟩ := hx
        simp only [planChunksAux] at hj
        rw [if_pos hse] at hj
        cases j with
        | zero =>
          rw [List.getElem?_cons_zero] at hj
          have hpr2 := Option.some.inj hj
          rw [← hpr2] at hpr
          have hle : start + chunkLen start e c ≤ e := chunkLen_add_le start e c (by omega)
          exact ⟨by exact hpr.1, by omega⟩
        | succ j =>
          rw [List.getElem?_cons_succ] at hj
          have := (ih (start + c) (by omega) x).mpr ⟨j, pr, hj, hpr⟩
          omega
    · constructor
      · intro hx; omega
      · intro hx
        obtain ⟨j, pr, hj, _⟩ := hx
        simp only [planChunksAux] at hj
        rw [if_neg hse] at hj
        simp at hj

lemma planChunksAux_nil (e c fuel start : ℕ) (h : ¬ start < e) :
    planChunksAux e c fuel start = [] := by
  cases fuel <;> simp [planChunksAux, h]

/-- On the happy path — every read fills its buffer and every response is
a 200 — the loop walks the whole plan and succeeds; each trace entry is
the one determined by its chunk's boundaries. -/
lemma uploadLoop_happy (env : Env) (e c : ℕ) (hc : 0 < c)
    (hread : ∀ p l, env.readRes p l = Except.ok l)
    (h200 : ∀ k, ∃ bt, env.resp k = HttpResp.ok 200 bt) :
    ∀ (fuel start k : ℕ), e - start ≤ fuel →
      uploadLoop env e c fuel start start k =
        ((planChunksAux e c fuel start).map (stepOf env e c), Outcome.success) := by
  intro fuel
  induction fuel with
  | zero =>
    intro start k hfuel
    have hse : ¬ start < e := by omega
    simp [uploadLoop, planChunksAux, hse]
  | succ fuel ih =>
    intro start k hfuel
    by_cases hse : start < e
    · obtain ⟨bt, hbt⟩ := h200 k
      have hr := hread start (chunkLen start e c)
      by_cases hb : start + c > e
      · have hlen : chunkLen start e c = e - start := by
          unfold chunkLen; rw [if_pos hb]
        have hbrk : chunkLen start e c = 0 ∨ chunkLen start e c < c := by omega
        have hEq : uploadLoop env e c (fuel + 1) start start k =
            ([mkStep env e c start start (chunkLen start e c)], Outcome.success) := by
          simp only [uploadLoop, hse, if_true, hr, hbt]
          rw [if_neg (by simp : ¬ (200 : ℕ) ≠ 200), if_pos hbrk]
        rw [hEq]
        simp only [planChunksAux]
        rw [if_pos hse, planChunksAux_nil e c fuel (start + c) (by omega)]
        simp [stepOf]
      · have hlen : chunkLen start e c = c := by
          unfold chunkLen; rw [if_neg hb]
        have hbrk : ¬ (chunkLen start e c = 0 ∨ chunkLen start e c < c) := by omega
        have hEq : uploadLoop env e c (fuel + 1) start start k =
            consStep (mkStep env e c start start (chunkLen start e c))
              (uploadLoop env e c fuel (start + c)
                (start + chunkLen start e c) (k + 1)) := by
          simp only [uploadLoop, hse, if_true, hr, hbt]
          rw [if_neg (by simp : ¬ (200 : ℕ) ≠ 200), if_neg hbrk]
        rw [hEq, hlen]
        rw [ih (start + c) (k + 1) (by omega)]
        simp only [planChunksAux]
        rw [if_pos hse]
        simp only [List.map_cons, consStep]
        have hstep : stepOf env e c (start, start + chunkLen start e c) =
            mkStep env e c start start (chunkLen start e c) := by
          simp [stepOf]
        rw [hstep, hlen]
    · simp only [uploadLoop]
      rw [if_neg hse, planChunksAux_nil e c (fuel + 1) start hse]
      simp

/-- `do_upload` on the happy path: the seek succeeds, every read fills its
buffer and every response is a 200.  The run succeeds and its requests are
exactly the planned chunks. -/
lemma do_upload_happy (env : Env) (s e c : ℕ) (hc : 0 < c)
    (hseek : env.seekErr = none)
    (hread : ∀ p l, env.readRes p l = Except.ok l)
    (h200 : ∀ k, ∃ bt, env.resp k = HttpResp.ok 200 bt) :
    do_upload env s e c =
      ((planChunks s e c).map (stepOf env e c), Outcome.success) := by
  simp only [do_upload, planChunks, hseek]
  exact uploadLoop_happy env e c hc hread h200 (e - s + 1) s 0 (by omega)

/-- Lift of `uploadLoop_shape` through `do_upload`. -/
lemma requests_shape (env : Env) (s e c j : ℕ) (st : Step)
    (hj : (requests env s e c)[j]? = some st) :
    st = mkStep env e c st.req.rStart st.pos st.n ∧
    env.readRes st.pos (chunkLen st.req.rStart e c) = Except.ok st.n ∧
    st.req.rStart < e := by
  cases hseek : env.seekErr with
  | some msg =>
    unfold requests at hj
    simp only [do_upload, hseek] at hj
    simp at hj
  | none =>
    unfold requests at hj
    simp only [do_upload, hseek] at hj
    exact uploadLoop_shape env e c (e - s + 1) s s 0 j st hj

/-- Lift of `uploadLoop_rStart` through `do_upload`. -/
lemma requests_rStart (env : Env) (s e c j : ℕ) (st : Step)
    (hj : (requests env s e c)[j]? = some st) :
    st.req.rStart = s + j * c := by
  cases hseek : env.seekErr with
  | some msg =>
    unfold requests at hj
    simp only [do_upload, hseek] at hj
    simp at hj
  | none =>
    unfold requests at hj
    simp only [do_upload, hseek] at hj
    exact uploadLoop_rStart env e c (e - s + 1) s s 0 j st hj

/-- Lift of `uploadLoop_consecutive` through `do_upload`. -/
lemma requests_consecutive (env : Env) (s e c j : ℕ) (st st' : Step)
    (hj : (requests env s e c)[j]? = some st)
    (hj2 : (requests env s e c)[j+1]? = some st') :
    st'.req.rStart = st.req.rStart + c ∧ ¬(st.n = 0 ∨ st.n < c) := by
  cases hseek : env.seekErr with
  | some msg =>
    unfold requests at hj
    simp only [do_upload, hseek] at hj
    simp at hj
  | none =>
    unfold requests at hj hj2
    simp only [do_upload, hseek] at hj hj2
    exact uploadLoop_consecutive env e c (e - s + 1) s s 0 j st st' hj hj2

end Lemmas

section Claims

/-- C2: whenever the `j`-th issued chunk's HTTP response has a status other
than 200 (any non-200, other 2xx codes included), the run ends in the
`HttpStatusError` failure carrying the response body text (or the
placeholder `"Response body is empty"` when the body cannot be read), and
no request for any later chunk is issued: the trace stops at `j + 1`
requests. -/
theorem c2_non200_is_fatal (env : Env) (s e c j : ℕ) (st : Step)
    (status : ℕ) (bt : Option String)
    (hj : (requests env s e c)[j]? = some st)
    (hresp : env.resp j = HttpResp.ok status bt)
    (hstatus : status ≠ 200) :
    (requests env s e c).length = j + 1 ∧
    outcome env s e c =
      Outcome.httpStatusError ("Http Error uploading chunk: " ++
        bt.getD "Response body is empty") := by
  cases hseek : env.seekErr with
  | some msg =>
    unfold requests at hj
    simp only [do_upload, hseek] at hj
    simp at hj
  | none =>
    unfold requests at hj
    unfold requests outcome
    simp only [do_upload, hseek] at hj ⊢
    exact uploadLoop_bad_status env e c (e - s + 1) s s 0 j st status bt hj
      (by rw [Nat.zero_add]; exact hresp) hstatus

/-- C3: every issued request's body is the full freshly allocated buffer of
length `min(chunk_size, range_end - cursor)` — never truncated to the byte
count `n` the read reported — and every byte past the `n` read ones is a
zero of the original `vec![0; len]` allocation. -/
theorem c3_full_buffer_sent (env : Env) (s e c j : ℕ) (st : Step)
    (hj : (requests env s e c)[j]? = some st) :
    st.req.body.length = min c (e - st.req.rStart) ∧
    env.readRes st.pos (chunkLen st.req.rStart e c) = Except.ok st.n ∧
    st.req.body = mkBody env.data st.pos st.n (chunkLen st.req.rStart e c) ∧
    (∀ i, st.n ≤ i → i < st.req.body.length → st.req.body[i]? = some 0) := by
  obtain ⟨hst, hread, hlt⟩ := requests_shape env s e c j st hj
  have hbody : st.req.body = mkBody env.data st.pos st.n (chunkLen st.req.rStart e c) := by
    conv_lhs => rw [hst]
    rfl
  refine ⟨?_, hread, hbody, ?_⟩
  · rw [hbody, mkBody_length]
    exact chunkLen_eq_min _ _ _ hlt
  · intro i hni hilen
    rw [hbody, mkBody_length] at hilen
    rw [hbody]
    exact mkBody_padding env.data st.pos st.n _ i hni hilen

/-- C4: if the read for an issued chunk reported `n == 0` or
`n < chunk_size`, the loop stops after that chunk — its HTTP request is in
the trace and no later request is ever issued, regardless of the remaining
range — and when that chunk's response is a 200 the run ends in `Success`. -/
theorem c4_short_read_terminates (env : Env) (s e c j : ℕ) (st : Step)
    (hj : (requests env s e c)[j]? = some st)
    (hn : st.n = 0 ∨ st.n < c) :
    (requests env s e c).length = j + 1 ∧
    (∀ bt, env.resp j = HttpResp.ok 200 bt →
      outcome env s e c = Outcome.success) := by
  cases hseek : env.seekErr with
  | some msg =>
    unfold requests at hj
    simp only [do_upload, hseek] at hj
    simp at hj
  | none =>
    unfold requests at hj
    unfold requests outcome
    simp only [do_upload, hseek] at hj ⊢
    have hstop := uploadLoop_short_read env e c (e - s + 1) s s 0 j st hj hn
    exact ⟨hstop.1, fun bt hb => hstop.2 bt (by rw [Nat.zero_add]; exact hb)⟩

/-- C5: every issued request carries exactly the header value
`bytes {start}-{end}/{range_end}` where `start` is the chunk's cursor,
`end = min(start + chunk_size, range_end)` its boundary, and the final
component is the configured range end (`rTotal = e`), not the source's
total length. -/
theorem c5_content_range_header (env : Env) (s e c j : ℕ) (st : Step)
    (hj : (requests env s e c)[j]? = some st) :
    st.req.header = contentRange st.req.rStart st.req.rEnd st.req.rTotal ∧
    st.req.rTotal = e ∧
    st.req.rEnd = min (st.req.rStart + c) e := by
  obtain ⟨hst, _, hlt⟩ := requests_shape env s e c j st hj
  have hheader : st.req.header =
      contentRange st.req.rStart (st.req.rStart + chunkLen st.req.rStart e c) e := by
    conv_lhs => rw [hst]
    rfl
  have hend : st.req.rEnd = st.req.rStart + chunkLen st.req.rStart e c := by
    conv_lhs => rw [hst]
    rfl
  have htot : st.req.rTotal = e := by
    conv_lhs => rw [hst]
    rfl
  refine ⟨?_, htot, ?_⟩
  · rw [hheader, hend, htot]
  · rw [hend]
    exact add_chunkLen_eq_min _ _ _ (le_of_lt hlt)

/-- C7: with `range_start == range_end` (and the initial seek succeeding),
the run issues zero HTTP requests and immediately ends in `Success`.  The
statement holds for every read oracle `env.readRes`, so no chunk read is
performed either. -/
theorem c7_empty_range (env : Env) (s c : ℕ) (hseek : env.seekErr = none) :
    do_upload env s s c = ([], Outcome.success) := by
  simp only [do_upload, hseek]
  simp [uploadLoop]

/-- C9: with `chunk_size == 0` and a non-empty range, the loop still
terminates: it issues exactly one request with empty body and header
`bytes {s}-{s}/{e}`, and with a 200 response the run ends in `Success` via
the `n == 0` break (the read into the empty buffer returns 0 by the Read
contract). -/
theorem c9_zero_chunk_size (env : Env) (s e : ℕ) (bt : Option String)
    (hse : s < e) (hseek : env.seekErr = none)
    (hread : env.readRes s 0 = Except.ok 0)
    (hresp : env.resp 0 = HttpResp.ok 200 bt) :
    do_upload env s e 0 =
      ([{ req := { method := env.method, url := env.url, rStart := s, rEnd := s,
                   rTotal := e, header := contentRange s s e, body := [] },
          pos := s, n := 0 }], Outcome.success) := by
  simp only [do_upload, hseek]
  have hlen : chunkLen s e 0 = 0 := by
    unfold chunkLen; rw [if_neg (by omega)]
  simp only [uploadLoop, hse, if_true, hlen, hread, hresp]
  rw [if_neg (by simp : ¬ (200 : ℕ) ≠ 200)]
  simp [mkStep, mkBody, hlen]

/-- C10: the transfer driver is deterministic — two runs with identical
parameters, identical source bytes, identical seek/read behavior and
identical per-request HTTP responses issue the identical request sequence
and produce the same terminal outcome. -/
theorem c10_deterministic (env₁ env₂ : Env) (s e c : ℕ)
    (hdata : env₁.data = env₂.data)
    (hseek : env₁.seekErr = env₂.seekErr)
    (hread : ∀ p l, env₁.readRes p l = env₂.readRes p l)
    (hresp : ∀ k, env₁.resp k = env₂.resp k)
    (hurl : env₁.url = env₂.url)
    (hmethod : env₁.method = env₂.method) :
    do_upload env₁ s e c = do_upload env₂ s e c := by
  have henv : env₁ = env₂ := by
    obtain ⟨d₁, se₁, r₁, rp₁, u₁, m₁⟩ := env₁
    obtain ⟨d₂, se₂, r₂, rp₂, u₂, m₂⟩ := env₂
    dsimp only at hdata hseek hread hresp hurl hmethod
    have h1 : r₁ = r₂ := funext fun p => funext fun l => hread p l
    have h2 : rp₁ = rp₂ := funext hresp
    rw [hdata, hseek, h1, h2, hurl, hmethod]
  rw [henv]

/-- The boundary facts C1 asserts about a run's request sequence:
arithmetic-progression cursors following `min (c + chunk) e`, contiguity,
strict increase (non-empty chunks), and exact coverage of `[s, e)`. -/
def C1Boundaries (env : Env) (s e c : ℕ) : Prop :=
  (∀ (j : ℕ) (st : Step), (requests env s e c)[j]? = some st →
     st.req.rStart = s + j * c ∧
     st.req.rEnd = min (st.req.rStart + c) e ∧
     st.req.rStart < st.req.rEnd) ∧
  (∀ (j : ℕ) (st st' : Step), (requests env s e c)[j]? = some st →
     (requests env s e c)[j+1]? = some st' →
     st'.req.rStart = st.req.rEnd) ∧
  (∀ x : ℕ, (s ≤ x ∧ x < e) ↔
     ∃ (j : ℕ) (st : Step), (requests env s e c)[j]? = some st ∧
       st.req.rStart ≤ x ∧ x < st.req.rEnd)

/-- C1: for `range_start ≤ range_end` and `chunk_size > 0`, on a run where
the source supplies every requested byte and every response is a 200, the
chunk boundaries produced by the upload loop follow the rule
`end = min(cursor + chunk_size, range_end)` and are contiguous,
non-overlapping, strictly increasing, with union exactly
`[range_start, range_end)`. -/
theorem c1_chunk_boundaries (env : Env) (s e c : ℕ) (_hse : s ≤ e) (hc : 0 < c)
    (hseek : env.seekErr = none)
    (hread : ∀ p l, env.readRes p l = Except.ok l)
    (h200 : ∀ k, ∃ bt, env.resp k = HttpResp.ok 200 bt) :
    C1Boundaries env s e c := by
  refine ⟨?_, ?_, ?_⟩
  · intro j st hj
    obtain ⟨hst, _, hlt⟩ := requests_shape env s e c j st hj
    have hstart := requests_rStart env s e c j st hj
    have hend : st.req.rEnd = st.req.rStart + chunkLen st.req.rStart e c := by
      conv_lhs => rw [hst]
      rfl
    refine ⟨hstart, ?_, ?_⟩
    · rw [hend]
      exact add_chunkLen_eq_min _ _ _ (le_of_lt hlt)
    · rw [hend]
      have := chunkLen_pos st.req.rStart e c hlt hc
      omega
  · intro j st st' hj hj2
    obtain ⟨hadv, _⟩ := requests_consecutive env s e c j st st' hj hj2
    obtain ⟨hst, _, hlt⟩ := requests_shape env s e c j st hj
    obtain ⟨_, _, hlt2⟩ := requests_shape env s e c (j+1) st' hj2
    have hend : st.req.rEnd = st.req.rStart + chunkLen st.req.rStart e c := by
      conv_lhs => rw [hst]
      rfl
    rw [hadv] at hlt2
    have hlen : chunkLen st.req.rStart e c = c := by
      unfold chunkLen
      rw [if_neg (by omega)]
    rw [hadv, hend, hlen]
  · intro x
    have hreq : requests env s e c = (planChunks s e c).map (stepOf env e c) := by
      unfold requests
      rw [do_upload_happy env s e c hc hseek hread h200]
    have huni := planChunksAux_union e c hc (e - s + 1) s (by omega) x
    unfold planChunks at hreq
    constructor
    · intro hx
      obtain ⟨j, pr, hj, hb1, hb2⟩ := huni.mp hx
      obtain ⟨h1, h2, h3⟩ := planChunksAux_elem e c (e - s + 1) s j pr hj
      refine ⟨j, stepOf env e c pr, ?_, hb1, ?_⟩
      · rw [hreq, List.getElem?_map, hj]
        rfl
      · have hEnd : (stepOf env e c pr).req.rEnd = pr.1 + chunkLen pr.1 e c := rfl
        rw [hEnd, ← h2]
        exact hb2
    · intro hx
      obtain ⟨j, st, hj, hb1, hb2⟩ := hx
      rw [hreq, List.getElem?_map] at hj
      cases hpr : (planChunksAux e c (e - s + 1) s)[j]? with
      | none => rw [hpr] at hj; simp at hj
      | some pr =>
        rw [hpr] at hj
        have hst : stepOf env e c pr = st := by
          simpa using hj
        obtain ⟨h1, h2, h3⟩ := planChunksAux_elem e c (e - s + 1) s j pr hpr
        refine huni.mpr ⟨j, pr, hpr, ?_, ?_⟩
        · rw [← hst] at hb1
          exact hb1
        · rw [← hst] at hb2
          have hEnd : (stepOf env e c pr).req.rEnd = pr.1 + chunkLen pr.1 e c := rfl
          rw [hEnd, ← h2] at hb2
          exact hb2

/-- The chunk-count facts C6 asserts about a happy-path run: in the
exact-multiple case, `(e-s)/c` requests all of body length `c`; otherwise
`(e-s)/c + 1` requests, all full except the last, whose body length is
`(e-s) mod c`. -/
def C6Counts (env : Env) (s e c : ℕ) : Prop :=
  ((e - s) % c = 0 →
     (requests env s e c).length = (e - s) / c ∧
     ∀ (j : ℕ) (st : Step), (requests env s e c)[j]? = some st →
       st.req.body.length = c) ∧
  ((e - s) % c ≠ 0 →
     (requests env s e c).length = (e - s) / c + 1 ∧
     (∀ (j : ℕ) (st : Step), (requests env s e c)[j]? = some st →
        j + 1 < (requests env s e c).length → st.req.body.length = c) ∧
     (∀ st : Step,
        (requests env s e c)[(requests env s e c).length - 1]? = some st →
        st.req.body.length = (e - s) % c))

/-- C6: for `range_start < range_end` and `chunk_size > 0`, when every read
fills its buffer (and every response is a 200): if the range length is an
exact multiple of `chunk_size`, exactly `(e-s)/c` requests are issued, all
with body length `chunk_size` and no short final chunk; otherwise exactly
one short chunk of length `(e-s) mod c` is issued, and it is the last
request. -/
theorem c6_chunk_counts (env : Env) (s e c : ℕ) (hse : s < e) (hc : 0 < c)
    (hseek : env.seekErr = none)
    (hread : ∀ p l, env.readRes p l = Except.ok l)
    (h200 : ∀ k, ∃ bt, env.resp k = HttpResp.ok 200 bt) :
    C6Counts env s e c := by
  have hreq : requests env s e c = (planChunks s e c).map (stepOf env e c) := by
    unfold requests
    rw [do_upload_happy env s e c hc hseek hread h200]
  have hlength : (requests env s e c).length = (e - s + c - 1) / c := by
    rw [hreq, List.length_map]
    unfold planChunks
    exact planChunksAux_length e c hc (e - s + 1) s (by omega)
  have hdm := Nat.div_add_mod (e - s) c
  have hmodlt : (e - s) % c < c := Nat.mod_lt _ hc
  have hbodylen : ∀ (j : ℕ) (st : Step), (requests env s e c)[j]? = some st →
      st.req.body.length = chunkLen (s + j * c) e c := by
    intro j st hj
    obtain ⟨hst, _, _⟩ := requests_shape env s e c j st hj
    have hstart := requests_rStart env s e c j st hj
    have hbody : st.req.body =
        mkBody env.data st.pos st.n (chunkLen st.req.rStart e c) := by
      conv_lhs => rw [hst]
      rfl
    rw [hbody, mkBody_length, hstart]
  have keyfull : ∀ q r j : ℕ, c * q + r = e - s → j + 1 ≤ q →
      chunkLen (s + j * c) e c = c := by
    intro q r j hqr hj1
    have h1 : (j + 1) * c = j * c + c := Nat.succ_mul j c
    have h2 : (j + 1) * c ≤ q * c := Nat.mul_le_mul_right c hj1
    have h3 : q * c = c * q := Nat.mul_comm q c
    unfold chunkLen
    rw [if_neg (by omega)]
  have keylast : ∀ q r : ℕ, c * q + r = e - s → r < c → r ≠ 0 →
      chunkLen (s + q * c) e c = r := by
    intro q r hqr hrc hr0
    have h3 : q * c = c * q := Nat.mul_comm q c
    unfold chunkLen
    rw [if_pos (by omega)]
    omega
  constructor
  · intro hmod
    have hlen2 : (requests env s e c).length = (e - s) / c := by
      rw [hlength]
      have h1 : e - s + c - 1 = c * ((e - s) / c) + (c - 1) := by omega
      have h2 : (c * ((e - s) / c) + (c - 1)) / c = (e - s) / c + (c - 1) / c :=
        Nat.mul_add_div hc _ _
      have h3 : (c - 1) / c = 0 := Nat.div_eq_of_lt (by omega)
      rw [h1, h2, h3, Nat.add_zero]
    refine ⟨hlen2, ?_⟩
    intro j st hj
    obtain ⟨hjlt, _⟩ := List.getElem?_eq_some_iff.mp hj
    rw [hlen2] at hjlt
    rw [hbodylen j st hj]
    exact keyfull ((e - s) / c) ((e - s) % c) j hdm hjlt
  · intro hmod
    have hlen2 : (requests env s e c).length = (e - s) / c + 1 := by
      rw [hlength]
      have h1 : e - s + c - 1 = c * ((e - s) / c) + ((e - s) % c + c - 1) := by
        omega
      have h2 : (c * ((e - s) / c) + ((e - s) % c + c - 1)) / c =
          (e - s) / c + ((e - s) % c + c - 1) / c := Nat.mul_add_div hc _ _
      have h3 : (e - s) % c + c - 1 = ((e - s) % c - 1) + c := by omega
      have h4 : ((e - s) % c - 1 + c) / c = ((e - s) % c - 1) / c + 1 :=
        Nat.add_div_right _ hc
      have h5 : ((e - s) % c - 1) / c = 0 := Nat.div_eq_of_lt (by omega)
      rw [h1, h2, h3, h4, h5, Nat.zero_add]
    refine ⟨hlen2, ?_, ?_⟩
    · intro j st hj hjlt
      rw [hlen2] at hjlt
      rw [hbodylen j st hj]
      exact keyfull ((e - s) / c) ((e - s) % c) j hdm (Nat.lt_succ_iff.mp hjlt)
    · intro st hj
      rw [hlen2] at hj
      have hidx : (e - s) / c + 1 - 1 = (e - s) / c := Nat.add_sub_cancel _ _
      rw [hidx] at hj
      rw [hbodylen _ st hj]
      exact keylast ((e - s) / c) ((e - s) % c) hdm hmodlt hmod

/-- The loop invariant C8 asserts: every issued request's cursor is
`range_start + j * chunk_size` and below `range_end`, successive requests
advance by exactly `chunk_size`, and every non-last request has body length
exactly `chunk_size`. -/
def C8Invariant (env : Env) (s e c : ℕ) : Prop :=
  ∀ (j : ℕ) (st : Step), (requests env s e c)[j]? = some st →
    (st.req.rStart = s + j * c ∧ st.req.rStart < e) ∧
    (∀ st' : Step, (requests env s e c)[j+1]? = some st' →
       st'.req.rStart = st.req.rStart + c ∧ st.req.body.length = c)

/-- C8: loop invariant of the transfer driver — whenever a chunk's request
is issued, the cursor equals `range_start + k * chunk_size` for the number
`k` of requests already issued, with cursor below `range_end`; every issued
request except possibly the last has body length exactly `chunk_size`, and
successive requests' start offsets increase by exactly `chunk_size`.  (The
only assumption is the Read-trait contract `n ≤ buffer length`.) -/
theorem c8_cursor_invariant (env : Env) (s e c : ℕ)
    (hvalid : ∀ p l n, env.readRes p l = Except.ok n → n ≤ l) :
    C8Invariant env s e c := by
  intro j st hj
  obtain ⟨hst, hrd, hlt⟩ := requests_shape env s e c j st hj
  have hstart := requests_rStart env s e c j st hj
  refine ⟨⟨hstart, hlt⟩, ?_⟩
  intro st' hj2
  obtain ⟨hadv, hfull⟩ := requests_consecutive env s e c j st st' hj hj2
  refine ⟨hadv, ?_⟩
  have hnle : st.n ≤ chunkLen st.req.rStart e c := hvalid _ _ _ hrd
  have hcle : chunkLen st.req.rStart e c ≤ c := chunkLen_le _ _ _
  have hbody : st.req.body =
      mkBody env.data st.pos st.n (chunkLen st.req.rStart e c) := by
    conv_lhs => rw [hst]
    rfl
  rw [hbody, mkBody_length]
  omega

end Claims

section Witnesses

/-- Happy-path environment: a 250-byte file of 7s, successful seek, reads
always filling the buffer, every response a bare 200. -/
def envHappy : Env :=
  { data := List.replicate 250 7
    seekErr := none
    readRes := fun _ l => Except.ok l
    resp := fun _ => HttpResp.ok 200 none
    url := "http://localhost/upload"
    method := "PUT" }

/-- Environment whose server answers 503 with body text to every request. -/
def envBad : Env :=
  { data := [1, 2, 3, 4, 5]
    seekErr := none
    readRes := fun _ l => Except.ok l
    resp := fun _ => HttpResp.ok 503 (some "oops")
    url := "http://localhost/upload"
    method := "PUT" }

/-- Environment whose file holds one byte, so every read reports 1 byte. -/
def envShort : Env :=
  { data := [7]
    seekErr := none
    readRes := fun _ _ => Except.ok 1
    resp := fun _ => HttpResp.ok 200 none
    url := "http://localhost/upload"
    method := "PUT" }

/-- Environment with a 10-byte file, uploaded with range end 4 (below the
file's length) for the header witness. -/
def envTen : Env :=
  { data := [1, 2, 3, 4, 5, 6, 7, 8, 9, 10]
    seekErr := none
    readRes := fun _ l => Except.ok l
    resp := fun _ => HttpResp.ok 200 none
    url := "http://localhost/upload"
    method := "PUT" }

/-- Environment whose reads always report 0 bytes. -/
def envNil : Env :=
  { data := List.replicate 9 3
    seekErr := none
    readRes := fun _ _ => Except.ok 0
    resp := fun _ => HttpResp.ok 200 none
    url := "http://localhost/upload"
    method := "PUT" }

/-- Twin of `envA` below, for the determinism witness. -/
def envA : Env :=
  { data := [1, 2, 3]
    seekErr := none
    readRes := fun _ l => Except.ok l
    resp := fun _ => HttpResp.ok 200 none
    url := "http://localhost/upload"
    method := "PUT" }

/-- Componentwise identical to `envA`. -/
def envB : Env :=
  { data := [1, 2, 3]
    seekErr := none
    readRes := fun _ l => Except.ok l
    resp := fun _ => HttpResp.ok 200 none
    url := "http://localhost/upload"
    method := "PUT" }

/-- The first step of the run of `envShort` over range `(0, 5)`, chunk 3:
a short read of 1 byte, body padded to the full 3-byte buffer. -/
def stepShort : Step :=
  ⟨⟨"PUT", "http://localhost/upload", 0, 3, 5, contentRange 0 3 5, [7, 0, 0]⟩, 0, 1⟩

/-- The first step of the run of `envTen` over range `(0, 4)`, chunk 3. -/
def stepTen : Step :=
  ⟨⟨"PUT", "http://localhost/upload", 0, 3, 4, contentRange 0 3 4, [1, 2, 3]⟩, 0, 3⟩

/-- Witness for C1: range `(100, 250)`, chunk 100, happy path. -/
theorem c1_chunk_boundaries_witness : C1Boundaries envHappy 100 250 100 :=
  c1_chunk_boundaries envHappy 100 250 100 (by omega) (by omega) rfl
    (fun _ _ => rfl) (fun _ => ⟨none, rfl⟩)

/-- Witness for C2: the first request of `envBad` draws a 503, so the run
stops after it with the `HttpStatusError` carrying the body text. -/
theorem c2_non200_is_fatal_witness :
    (requests envBad 0 5 2).length = 0 + 1 ∧
    outcome envBad 0 5 2 =
      Outcome.httpStatusError ("Http Error uploading chunk: " ++
        (some "oops").getD "Response body is empty") :=
  c2_non200_is_fatal envBad 0 5 2 0
    ⟨⟨"PUT", "http://localhost/upload", 0, 2, 5, contentRange 0 2 5, [1, 2]⟩, 0, 2⟩
    503 (some "oops") (by decide) rfl (by decide)

/-- Witness for C3: the short-read chunk of `envShort` still sends the full
3-byte zero-padded buffer. -/
theorem c3_full_buffer_sent_witness :
    stepShort.req.body.length = min 3 (5 - stepShort.req.rStart) ∧
    envShort.readRes stepShort.pos (chunkLen stepShort.req.rStart 5 3) =
      Except.ok stepShort.n ∧
    stepShort.req.body =
      mkBody envShort.data stepShort.pos stepShort.n
        (chunkLen stepShort.req.rStart 5 3) ∧
    (∀ i, stepShort.n ≤ i → i < stepShort.req.body.length →
      stepShort.req.body[i]? = some 0) :=
  c3_full_buffer_sent envShort 0 5 3 0 stepShort (by decide)

/-- Witness for C4: after the 1-byte short read of `envShort`, no further
request is issued and the 200 response makes the run succeed. -/
theorem c4_short_read_terminates_witness :
    (requests envShort 0 5 3).length = 0 + 1 ∧
    (∀ bt, envShort.resp 0 = HttpResp.ok 200 bt →
      outcome envShort 0 5 3 = Outcome.success) :=
  c4_short_read_terminates envShort 0 5 3 0 stepShort (by decide)
    (Or.inr (by decide))

/-- Witness for C5: the first request of `envTen` over range `(0, 4)`
carries `bytes 0-3/4` — the final component is the configured range end 4,
not the file's length 10. -/
theorem c5_content_range_header_witness :
    (envTen.data.length = 10 ∧ (4 : ℕ) ≠ 10) ∧
    (stepTen.req.header =
       contentRange stepTen.req.rStart stepTen.req.rEnd stepTen.req.rTotal ∧
     stepTen.req.rTotal = 4 ∧
     stepTen.req.rEnd = min (stepTen.req.rStart + 3) 4) :=
  ⟨by decide, c5_content_range_header envTen 0 4 3 0 stepTen (by decide)⟩

/-- Witness for C6: the spec's scenario — range `(100, 250)`, chunk 100. -/
theorem c6_chunk_counts_witness : C6Counts envHappy 100 250 100 :=
  c6_chunk_counts envHappy 100 250 100 (by omega) (by omega) rfl
    (fun _ _ => rfl) (fun _ => ⟨none, rfl⟩)

/-- Witness for C7: an empty range issues nothing and succeeds. -/
theorem c7_empty_range_witness :
    do_upload envHappy 42 42 5 = ([], Outcome.success) :=
  c7_empty_range envHappy 42 5 rfl

/-- Witness for C8 on a concrete valid-Read environment. -/
theorem c8_cursor_invariant_witness : C8Invariant envHappy 0 250 100 :=
  c8_cursor_invariant envHappy 0 250 100
    (fun _ _ _ h => le_of_eq (Except.ok.inj h).symm)

/-- Witness for C9: chunk size 0 over range `(3, 5)` issues exactly one
empty-bodied request with header `bytes 3-3/5` and succeeds. -/
theorem c9_zero_chunk_size_witness :
    do_upload envNil 3 5 0 =
      ([{ req := { method := envNil.method, url := envNil.url, rStart := 3,
                   rEnd := 3, rTotal := 5, header := contentRange 3 3 5,
                   body := [] },
          pos := 3, n := 0 }], Outcome.success) :=
  c9_zero_chunk_size envNil 3 5 none (by omega) rfl rfl rfl

/-- Witness for C10 on componentwise identical environments. -/
theorem c10_deterministic_witness :
    do_upload envA 0 3 2 = do_upload envB 0 3 2 :=
  c10_deterministic envA envB 0 3 2 rfl rfl (fun _ _ => rfl) (fun _ => rfl)
    rfl rfl

end Witnesses

end ChunkUploader
